import Mathlib

/-!
Shallow embedding of the `custom-errors` CSV reader (`src/csvreader.rs`).

Strings are modelled as `List Char`; the filesystem effects of
`read_to_lines` are modelled by an explicit `FsModel` record holding the
outcome of the existence check, of the open call, and of each buffered
line read.  Machine integers never overflow in the code under study
(lengths and indices are `usize` bounded by list lengths), so they are
modelled as `Nat`; the scalar cell type is a type parameter `T` equipped
with a parse function `List Char → Option T`, matching the `FromStr`
bound (the `Err` payload of `FromStr` is discarded by the source, which
replaces it with `CouldNotParseValue(token)`).
-/

/-- Embeds Rust `str::split(",")` (used at `csvreader.rs:54` and `:58`):
splits a character list at every occurrence of `sep`, keeping empty
segments, so the result always has at least one element.  `acc` holds the
current segment reversed. -/
def splitSepGo (sep : Char) (acc : List Char) : List Char → List (List Char)
  | [] => [acc.reverse]
  | c :: rest =>
    if c = sep then acc.reverse :: splitSepGo sep [] rest
    else splitSepGo sep (c :: acc) rest

/-- Top-level entry for the comma split: Rust `s.split(sep)` collected to a list. -/
def splitSep (sep : Char) (s : List Char) : List (List Char) :=
  splitSepGo sep [] s

/-- Finishes one buffered line the way `BufRead::lines` does: the
accumulator holds the line reversed; a single carriage return directly
before the newline (here: at the head of the reversed accumulator) is
stripped. -/
def lineOf (acc : List Char) : List Char :=
  (if acc.head? = some '\r' then acc.tail else acc).reverse

/-- Embeds the line iteration of `BufReader::lines` (`csvreader.rs:95`):
the content is cut at every `'\n'` (each `'\n'` terminates a line, with a
preceding `'\r'` stripped), and a final segment is a line only when it is
non-empty; an empty content yields no lines. -/
def splitLinesGo (acc : List Char) : List Char → List (List Char)
  | [] => if acc = [] then [] else [acc.reverse]
  | c :: rest =>
    if c = '\n' then lineOf acc :: splitLinesGo [] rest
    else splitLinesGo (c :: acc) rest

/-- Line splitting of a whole content, as `BufReader::lines` yields it. -/
def splitLines (s : List Char) : List (List Char) :=
  splitLinesGo [] s

/-- Payload of the short/long row errors (`CsvLineLen` in `csvreader.rs:17`). -/
structure CsvLineLen where
  line_num : Nat
  num_entries : Nat
  deriving DecidableEq, Repr

/-- The error enum `CsvError` of `csvreader.rs:23`.  The `io::Error`
payloads of `CouldNotOpenFile` and `CouldNotParseLine` are opaque causes;
they are modelled by an abstract `Nat` identifier. -/
inductive CsvError where
  | FileNonExistant
  | CouldNotOpenFile (cause : Nat)
  | CouldNotParseLine (cause : Nat)
  | FileIsEmpty
  | CouldNotParseValue (token : List Char)
  | LineTooShort (len : CsvLineLen)
  | LineTooLong (len : CsvLineLen)
  deriving DecidableEq, Repr

/-- The result record `CsvData<T>` of `csvreader.rs:11`. -/
structure CsvData (T : Type) where
  header : List (List Char)
  data : List (List T)
  deriving DecidableEq

deriving instance DecidableEq for Except

/-- Embeds `entries.into_iter().collect::<Result<Vec<T>>>()`
(`csvreader.rs:68`): the first `error` in list order aborts, otherwise
all payloads are collected in order. -/
def sequenceResults {T : Type} : List (Except CsvError T) → Except CsvError (List T)
  | [] => .ok []
  | .error e :: _ => .error e
  | .ok v :: rest => (sequenceResults rest).map (fun vs => v :: vs)

/-- Embeds the per-line token parsing of `csvreader.rs:58-68`: every
token is fed to `T`'s parse, a failure is replaced by
`CouldNotParseValue(token)`, and the row succeeds only when every token
parses. -/
def parseEntries {T : Type} (parse : List Char → Option T)
    (tokens : List (List Char)) : Except CsvError (List T) :=
  sequenceResults (tokens.map (fun e =>
    match parse e with
    | some v => Except.ok v
    | none => Except.error (.CouldNotParseValue e)))

/-- Embeds the data-row loop `for i in 1..lines.len()` of
`csvreader.rs:57-85`: `i` is the index of the current line in the
original sequence (the first data row gets `i = 1`), `hlen` the header
width; a parse failure or a width mismatch aborts with the corresponding
error, otherwise the row is appended. -/
def parseRows {T : Type} (parse : List Char → Option T) (hlen : Nat) :
    Nat → List (List Char) → Except CsvError (List (List T))
  | _, [] => .ok []
  | i, line :: rest =>
    match parseEntries parse (splitSep ',' line) with
    | .error e => .error e
    | .ok entries =>
      if entries.length = hlen then
        (parseRows parse hlen (i + 1) rest).map (fun data => entries :: data)
      else if entries.length < hlen then
        .error (.LineTooShort ⟨i, entries.length⟩)
      else
        .error (.LineTooLong ⟨i, entries.length⟩)

/-- The row stage of `read_csv` (`csvreader.rs:47-86`), operating on the
line sequence produced by `read_to_lines` (the spec's `parse_table`): an
empty sequence fails with `FileIsEmpty`, otherwise line 0 split on commas
becomes the header and the remaining lines are parsed against its width. -/
def read_csv_lines {T : Type} (parse : List Char → Option T)
    (lines : List (List Char)) : Except CsvError (CsvData T) :=
  match lines with
  | [] => .error .FileIsEmpty
  | hline :: rest =>
    (parseRows parse (splitSep ',' hline).length 1 rest).map
      (fun data => ⟨splitSep ',' hline, data⟩)

/-- Abstract outcome of the filesystem interactions of `read_to_lines`:
whether `path.exists()` holds, the outcome of the read-only open, and the
outcome of each buffered line read (`Except.error cause` models a line
whose bytes fail to decode). -/
structure FsModel where
  pathExists : Bool
  openResult : Except Nat Unit
  lineResults : List (Except Nat (List Char))

/-- Embeds the final collect of `csvreader.rs:98-101`: the per-line
results are mapped into `CouldNotParseLine` and collected, so the first
bad line aborts the whole list. -/
def collectLines : List (Except Nat (List Char)) → Except CsvError (List (List Char))
  | [] => .ok []
  | .error e :: _ => .error (.CouldNotParseLine e)
  | .ok l :: rest => (collectLines rest).map (fun ls => l :: ls)

/-- Embeds `read_to_lines` (`csvreader.rs:88-101`): fail with
`FileNonExistant` when the existence check fails, then open (wrapping a
failure in `CouldNotOpenFile`), then collect the line reads. -/
def read_to_lines (fs : FsModel) : Except CsvError (List (List Char)) :=
  if fs.pathExists = false then .error .FileNonExistant
  else
    match fs.openResult with
    | .error e => .error (.CouldNotOpenFile e)
    | .ok _ => collectLines fs.lineResults

/-- Embeds `read_csv` (`csvreader.rs:47`): the loader runs first and its
error propagates unchanged (`read_to_lines(filename)?`), then the row
stage runs on the loaded lines. -/
def read_csv {T : Type} (parse : List Char → Option T) (fs : FsModel) :
    Except CsvError (CsvData T) :=
  match read_to_lines fs with
  | .error e => .error e
  | .ok lines => read_csv_lines parse lines

/-- Value of one decimal ASCII digit, `none` on any other character. -/
def digitVal (c : Char) : Option Nat :=
  if '0' ≤ c ∧ c ≤ '9' then some (c.toNat - '0'.toNat) else none

/-- Accumulates decimal digits left to right; `none` on the first
non-digit character. -/
def parseNatAux (acc : Nat) : List Char → Option Nat
  | [] => some acc
  | c :: rest =>
    match digitVal c with
    | some d => parseNatAux (acc * 10 + d) rest
    | none => none

/-- A non-empty all-digit run parsed to its value. -/
def parseUnsigned (s : List Char) : Option Nat :=
  match s with
  | [] => none
  | _ => parseNatAux 0 s

/-- Embeds `i32::from_str` (the `T = i32` instantiation used by
`main.rs`): an optional single sign, then a non-empty run of decimal
digits, rejected when the value falls outside the `i32` range. -/
def parseI32 (s : List Char) : Option Int :=
  match s with
  | '+' :: rest =>
    (parseUnsigned rest).bind (fun n =>
      if n ≤ 2147483647 then some (Int.ofNat n) else none)
  | '-' :: rest =>
    (parseUnsigned rest).bind (fun n =>
      if n ≤ 2147483648 then some (-(Int.ofNat n)) else none)
  | _ =>
    (parseUnsigned s).bind (fun n =>
      if n ≤ 2147483647 then some (Int.ofNat n) else none)

/-- A data line the row loop accepts: all its tokens parse and its width
equals the header width. -/
def rowAccepted {T : Type} (parse : List Char → Option T) (hlen : Nat)
    (line : List Char) : Prop :=
  ∃ vs, parseEntries parse (splitSep ',' line) = .ok vs ∧ vs.length = hlen

/-- A comma split is never the empty list: the accumulator is always
flushed as a final segment. -/
lemma splitSepGo_ne_nil (sep : Char) :
    ∀ (l acc : List Char), splitSepGo sep acc l ≠ []
  | [], acc => by simp [splitSepGo]
  | c :: rest, acc => by
    simp only [splitSepGo]
    split
    · simp
    · exact splitSepGo_ne_nil sep rest (c :: acc)

/-- The comma split of any string has at least one token. -/
lemma splitSep_ne_nil (sep : Char) (s : List Char) : splitSep sep s ≠ [] :=
  splitSepGo_ne_nil sep s []

/-- A successful row parse means every token parsed, cell by cell. -/
lemma parseEntries_ok {T : Type} (parse : List Char → Option T) :
    ∀ (ts : List (List Char)) (vs : List T),
      parseEntries parse ts = .ok vs → ts.map parse = vs.map some := by
  intro ts
  induction ts with
  | nil =>
    intro vs h
    simp only [parseEntries, List.map_nil, sequenceResults] at h
    cases h
    simp
  | cons t ts ih =>
    intro vs h
    simp only [parseEntries, List.map_cons] at h
    cases hp : parse t with
    | none => rw [hp] at h; simp [sequenceResults] at h
    | some v =>
      rw [hp] at h
      simp only [sequenceResults] at h
      cases hrec : sequenceResults (ts.map (fun e =>
          match parse e with
          | some v => Except.ok v
          | none => Except.error (.CouldNotParseValue e))) with
      | error e => rw [hrec] at h; simp [Except.map] at h
      | ok vs' =>
        rw [hrec] at h
        simp only [Except.map] at h
        cases h
        have := ih vs' hrec
        simp [hp, this]

/-- A successful row parse has as many cells as tokens. -/
lemma parseEntries_ok_length {T : Type} (parse : List Char → Option T)
    (ts : List (List Char)) (vs : List T) (h : parseEntries parse ts = .ok vs) :
    vs.length = ts.length := by
  have := parseEntries_ok parse ts vs h
  have : (ts.map parse).length = (vs.map some).length := by rw [this]
  simpa using this.symm

/-- Every token of a successfully parsed row parses. -/
lemma parseEntries_ok_all_parse {T : Type} (parse : List Char → Option T)
    (ts : List (List Char)) (vs : List T) (h : parseEntries parse ts = .ok vs) :
    ∀ t ∈ ts, ∃ v, parse t = some v := by
  intro t ht
  have hmap := parseEntries_ok parse ts vs h
  have : parse t ∈ ts.map parse := List.mem_map_of_mem parse ht
  rw [hmap] at this
  rcases List.mem_map.mp this with ⟨v, _, hv⟩
  exact ⟨v, hv.symm⟩

/-- The row parse fails exactly at the leftmost token that does not
parse, carrying that raw token. -/
lemma parseEntries_first_error {T : Type} (parse : List Char → Option T) :
    ∀ (tpre : List (List Char)) (bad : List Char) (tpost : List (List Char)),
      (∀ t ∈ tpre, ∃ v, parse t = some v) → parse bad = none →
      parseEntries parse (tpre ++ bad :: tpost) =
        .error (.CouldNotParseValue bad) := by
  intro tpre
  induction tpre with
  | nil =>
    intro bad tpost _ hbad
    simp [parseEntries, sequenceResults, hbad]
  | cons t tpre ih =>
    intro bad tpost hall hbad
    rcases hall t (List.mem_cons_self t tpre) with ⟨v, hv⟩
    have hrest := ih bad tpost (fun x hx => hall x (List.mem_cons_of_mem t hx)) hbad
    simp only [parseEntries, List.map_cons, List.cons_append] at *
    rw [hv]
    simp only [sequenceResults, hrest, Except.map]

/-- Any error of the row token parse is a `CouldNotParseValue`. -/
lemma parseEntries_error_shape {T : Type} (parse : List Char → Option T) :
    ∀ (ts : List (List Char)) (e : CsvError),
      parseEntries parse ts = .error e → ∃ tok, e = .CouldNotParseValue tok := by
  intro ts
  induction ts with
  | nil => intro e h; simp [parseEntries, sequenceResults] at h
  | cons t ts ih =>
    intro e h
    simp only [parseEntries, List.map_cons] at h
    cases hp : parse t with
    | none =>
      rw [hp] at h
      simp only [sequenceResults] at h
      cases h
      exact ⟨t, rfl⟩
    | some v =>
      rw [hp] at h
      simp only [sequenceResults] at h
      cases hrec : sequenceResults (ts.map (fun e =>
          match parse e with
          | some v => Except.ok v
          | none => Except.error (.CouldNotParseValue e))) with
      | error e' =>
        rw [hrec] at h
        simp only [Except.map] at h
        cases h
        exact ih _ hrec
      | ok vs' => rw [hrec] at h; simp [Except.map] at h

/-- Unfolding of the row loop at a line whose token parse fails. -/
lemma parseRows_cons_error {T : Type} (parse : List Char → Option T) (hlen i : Nat)
    (line : List Char) (rest : List (List Char)) (e : CsvError)
    (hpe : parseEntries parse (splitSep ',' line) = .error e) :
    parseRows parse hlen i (line :: rest) = .error e := by
  simp only [parseRows, hpe]

/-- Unfolding of the row loop at a line whose token parse succeeds. -/
lemma parseRows_cons_ok {T : Type} (parse : List Char → Option T) (hlen i : Nat)
    (line : List Char) (rest : List (List Char)) (entries : List T)
    (hpe : parseEntries parse (splitSep ',' line) = .ok entries) :
    parseRows parse hlen i (line :: rest) =
      if entries.length = hlen then
        (parseRows parse hlen (i + 1) rest).map (fun data => entries :: data)
      else if entries.length < hlen then
        .error (.LineTooShort ⟨i, entries.length⟩)
      else
        .error (.LineTooLong ⟨i, entries.length⟩) := by
  simp only [parseRows, hpe]

/-- A successful run of the row loop returns one parsed row per input
line, each of header width, in order. -/
lemma parseRows_ok {T : Type} (parse : List Char → Option T) (hlen : Nat) :
    ∀ (rows : List (List Char)) (i : Nat) (data : List (List T)),
      parseRows parse hlen i rows = .ok data →
      data.length = rows.length ∧
      ∀ (j : Nat) (hj : j < rows.length) (hd : j < data.length),
        parseEntries parse (splitSep ',' (rows.get ⟨j, hj⟩)) = .ok (data.get ⟨j, hd⟩) ∧
        (data.get ⟨j, hd⟩).length = hlen := by
  intro rows
  induction rows with
  | nil =>
    intro i data h
    simp only [parseRows] at h
    cases h
    exact ⟨rfl, fun j hj => absurd hj (by simp)⟩
  | cons r rest ih =>
    intro i data h
    cases hpe : parseEntries parse (splitSep ',' r) with
    | error e => rw [parseRows_cons_error parse hlen i r rest e hpe] at h; simp at h
    | ok entries =>
      rw [parseRows_cons_ok parse hlen i r rest entries hpe] at h
      by_cases hl : entries.length = hlen
      · rw [if_pos hl] at h
        cases hrec : parseRows parse hlen (i + 1) rest with
        | error e => rw [hrec] at h; simp [Except.map] at h
        | ok data' =>
          rw [hrec] at h
          simp only [Except.map] at h
          cases h
          obtain ⟨hlen', hcells⟩ := ih (i + 1) data' hrec
          refine ⟨by simp [hlen'], ?_⟩
          intro j hj hd
          cases j with
          | zero => simpa using ⟨hpe, hl⟩
          | succ j =>
            have hj' : j < rest.length := by simpa using hj
            have hd' : j < data'.length := by simpa using hd
            simpa using hcells j hj' hd'
      · rw [if_neg hl] at h
        by_cases hlt : entries.length < hlen
        · rw [if_pos hlt] at h; simp at h
        · rw [if_neg hlt] at h; simp at h

/-- Rows the loop accepts are traversed transparently: parsing
`pre ++ rows` when every line of `pre` is accepted reduces to parsing
`rows` at the shifted line index, with the parsed prefix prepended. -/
lemma parseRows_append_accepted {T : Type} (parse : List Char → Option T) (hlen : Nat) :
    ∀ (pre : List (List Char)), (∀ p ∈ pre, rowAccepted parse hlen p) →
      ∀ (i : Nat) (rows : List (List Char)),
        ∃ preData : List (List T),
          parseRows parse hlen i (pre ++ rows) =
            (parseRows parse hlen (i + pre.length) rows).map (fun d => preData ++ d) := by
  intro pre
  induction pre with
  | nil =>
    intro _ i rows
    refine ⟨[], ?_⟩
    simp only [List.nil_append, List.length_nil, Nat.add_zero]
    cases parseRows parse hlen i rows <;> simp [Except.map]
  | cons p pre ih =>
    intro hacc i rows
    rcases hacc p (List.mem_cons_self p pre) with ⟨vs, hok, hvlen⟩
    rcases ih (fun x hx => hacc x (List.mem_cons_of_mem p hx)) (i + 1) rows with ⟨preD, heq⟩
    refine ⟨vs :: preD, ?_⟩
    have h1 : (p :: pre) ++ rows = p :: (pre ++ rows) := rfl
    rw [h1, parseRows_cons_ok parse hlen i p (pre ++ rows) vs hok, if_pos hvlen, heq]
    have hidx : i + 1 + pre.length = i + (p :: pre).length := by
      simp only [List.length_cons]
      omega
    rw [hidx]
    cases parseRows parse hlen (i + (p :: pre).length) rows <;> simp [Except.map]

/-- A short/long-row error at line number `j` with count `k` pinpoints a
line of the input whose tokens all parsed to `k` values: the width check
only runs on rows whose token parse succeeded. -/
lemma parseRows_width_at {T : Type} (parse : List Char → Option T) (hlen : Nat) :
    ∀ (rows : List (List Char)) (i j k : Nat),
      (parseRows parse hlen i rows = .error (.LineTooShort ⟨j, k⟩) ∨
       parseRows parse hlen i rows = .error (.LineTooLong ⟨j, k⟩)) →
      ∃ (pre : List (List Char)) (r : List Char) (post : List (List Char)) (vs : List T),
        rows = pre ++ r :: post ∧ j = i + pre.length ∧
        parseEntries parse (splitSep ',' r) = .ok vs ∧ vs.length = k := by
  intro rows
  induction rows with
  | nil =>
    intro i j k h
    rcases h with h | h <;> simp [parseRows] at h
  | cons r rest ih =>
    intro i j k h
    cases hpe : parseEntries parse (splitSep ',' r) with
    | error e =>
      rw [parseRows_cons_error parse hlen i r rest e hpe] at h
      obtain ⟨tok, rfl⟩ := parseEntries_error_shape parse _ e hpe
      rcases h with h | h <;> simp at h
    | ok entries =>
      rw [parseRows_cons_ok parse hlen i r rest entries hpe] at h
      by_cases hl : entries.length = hlen
      · rw [if_pos hl] at h
        have hrec : parseRows parse hlen (i + 1) rest = .error (.LineTooShort ⟨j, k⟩) ∨
            parseRows parse hlen (i + 1) rest = .error (.LineTooLong ⟨j, k⟩) := by
          cases hx : parseRows parse hlen (i + 1) rest with
          | error e' =>
            rw [hx] at h
            simp only [Except.map] at h
            rcases h with h | h <;> [left; right] <;> rw [← h]
          | ok d => rw [hx] at h; simp [Except.map] at h
        obtain ⟨pre, r', post, vs, hrows, hj, hok, hk⟩ := ih (i + 1) j k hrec
        refine ⟨r :: pre, r', post, vs, by rw [hrows, List.cons_append], ?_, hok, hk⟩
        simp only [List.length_cons]
        omega
      · rw [if_neg hl] at h
        by_cases hlt : entries.length < hlen
        · rw [if_pos hlt] at h
          rcases h with h | h
          · simp only [Except.error.injEq, CsvError.LineTooShort.injEq,
              CsvLineLen.mk.injEq] at h
            exact ⟨[], r, rest, entries, by simp, by simp [h.1], hpe, h.2⟩
          · simp at h
        · rw [if_neg hlt] at h
          rcases h with h | h
          · simp at h
          · simp only [Except.error.injEq, CsvError.LineTooLong.injEq,
              CsvLineLen.mk.injEq] at h
            exact ⟨[], r, rest, entries, by simp, by simp [h.1], hpe, h.2⟩

/-- The row loop never fabricates the loader's or the emptiness errors:
its failures are cell-parse or width errors only. -/
lemma parseRows_error_shape {T : Type} (parse : List Char → Option T) (hlen : Nat) :
    ∀ (rows : List (List Char)) (i : Nat) (e : CsvError),
      parseRows parse hlen i rows = .error e →
      (∃ tok, e = .CouldNotParseValue tok) ∨
      (∃ ll, e = .LineTooShort ll) ∨ (∃ ll, e = .LineTooLong ll) := by
  intro rows
  induction rows with
  | nil => intro i e h; simp [parseRows] at h
  | cons r rest ih =>
    intro i e h
    cases hpe : parseEntries parse (splitSep ',' r) with
    | error e' =>
      rw [parseRows_cons_error parse hlen i r rest e' hpe] at h
      cases h
      exact Or.inl (parseEntries_error_shape parse _ _ hpe)
    | ok entries =>
      rw [parseRows_cons_ok parse hlen i r rest entries hpe] at h
      by_cases hl : entries.length = hlen
      · rw [if_pos hl] at h
        cases hx : parseRows parse hlen (i + 1) rest with
        | error e' =>
          rw [hx] at h
          simp only [Except.map] at h
          cases h
          exact ih (i + 1) _ hx
        | ok d => rw [hx] at h; simp [Except.map] at h
      · rw [if_neg hl] at h
        by_cases hlt : entries.length < hlen
        · rw [if_pos hlt] at h; cases h; exact Or.inr (Or.inl ⟨_, rfl⟩)
        · rw [if_neg hlt] at h; cases h; exact Or.inr (Or.inr ⟨_, rfl⟩)

/-- Unfolding of the line-read collect at a successful read. -/
lemma collectLines_cons_ok (l : List Char) (L : List (Except Nat (List Char))) :
    collectLines (.ok l :: L) = (collectLines L).map (fun ls => l :: ls) := rfl

/-- Collecting all-successful line reads returns every line in order. -/
lemma collectLines_map_ok :
    ∀ (ls : List (List Char)), collectLines (ls.map .ok) = .ok ls := by
  intro ls
  induction ls with
  | nil => rfl
  | cons l ls ih =>
    rw [List.map_cons, collectLines_cons_ok, ih]
    rfl

/-- Collecting line reads aborts at the first failed read, wrapped in
`CouldNotParseLine`; no partial list survives. -/
lemma collectLines_first_error :
    ∀ (good : List (List Char)) (e : Nat) (rest : List (Except Nat (List Char))),
      collectLines (good.map .ok ++ .error e :: rest) =
        .error (.CouldNotParseLine e) := by
  intro good e rest
  induction good with
  | nil => rfl
  | cons l good ih =>
    rw [List.map_cons, List.cons_append, collectLines_cons_ok, ih]
    rfl

/-- Unfolding of the line splitter on one character. -/
lemma splitLinesGo_cons (acc : List Char) (c : Char) (rest : List Char) :
    splitLinesGo acc (c :: rest) =
      if c = '\n' then lineOf acc :: splitLinesGo [] rest
      else splitLinesGo (c :: acc) rest := rfl

/-- Unfolding of the line splitter at the end of the content. -/
lemma splitLinesGo_nil (acc : List Char) :
    splitLinesGo acc [] = if acc = [] then [] else [acc.reverse] := rfl

/-- Characters free of `'\n'` are only accumulated by the line splitter. -/
lemma splitLinesGo_no_newline :
    ∀ (c acc rest : List Char), '\n' ∉ c →
      splitLinesGo acc (c ++ rest) = splitLinesGo (c.reverse ++ acc) rest := by
  intro c
  induction c with
  | nil => intro acc rest _; simp
  | cons x c ih =>
    intro acc rest hx
    have hxne : ¬x = '\n' := fun hcontr => hx (hcontr ▸ List.mem_cons_self x c)
    have hc : '\n' ∉ c := fun hm => hx (List.mem_cons_of_mem x hm)
    rw [List.cons_append, splitLinesGo_cons, if_neg hxne, ih (x :: acc) rest hc]
    congr 1
    simp

/-- Appending a final `'\n'` to a content whose final accumulated segment
is non-empty and does not end in `'\r'` does not change the split. -/
lemma splitLinesGo_trailing_newline :
    ∀ (cs acc : List Char),
      (cs = [] → acc ≠ [] ∧ acc.head? ≠ some '\r') →
      (∀ x, cs.getLast? = some x → x ≠ '\n' ∧ x ≠ '\r') →
      splitLinesGo acc (cs ++ ['\n']) = splitLinesGo acc cs := by
  intro cs
  induction cs with
  | nil =>
    intro acc h1 _
    obtain ⟨hne, hcr⟩ := h1 rfl
    rw [List.nil_append, splitLinesGo_cons, if_pos rfl, splitLinesGo_nil,
      splitLinesGo_nil, if_pos rfl, if_neg hne]
    simp [lineOf, hcr]
  | cons x cs ih =>
    intro acc h1 h2
    by_cases hx : x = '\n'
    · subst hx
      cases cs with
      | nil => exact absurd (h2 '\n' rfl).1 (by simp)
      | cons y cs' =>
        have h2' : ∀ z, (y :: cs').getLast? = some z → z ≠ '\n' ∧ z ≠ '\r' := by
          intro z hz
          exact h2 z (by rwa [List.getLast?_cons_cons])
        have hrec := ih [] (fun hcontr => by simp at hcontr) h2'
        rw [List.cons_append, splitLinesGo_cons acc '\n' ((y :: cs') ++ ['\n']),
          if_pos rfl, hrec, splitLinesGo_cons acc '\n' (y :: cs'), if_pos rfl]
    · cases cs with
      | nil =>
        have hx2 := h2 x rfl
        have hrec := ih (x :: acc) (fun _ => ⟨by simp, by simp [hx2.2]⟩) (by simp)
        rw [List.cons_append, splitLinesGo_cons, if_neg hx, hrec,
          splitLinesGo_cons, if_neg hx]
      | cons y cs' =>
        have h2' : ∀ z, (y :: cs').getLast? = some z → z ≠ '\n' ∧ z ≠ '\r' := by
          intro z hz
          exact h2 z (by rwa [List.getLast?_cons_cons])
        have hrec := ih (x :: acc) (fun hcontr => by simp at hcontr) h2'
        rw [List.cons_append, splitLinesGo_cons acc x ((y :: cs') ++ ['\n']),
          if_neg hx, hrec, splitLinesGo_cons acc x (y :: cs'), if_neg hx]

/-- An error of the row stage on a non-empty line sequence is exactly an
error of the data-row loop. -/
lemma read_csv_lines_error_elim {T : Type} (parse : List Char → Option T)
    (hline : List Char) (rows : List (List Char)) (e : CsvError)
    (h : read_csv_lines parse (hline :: rows) = .error e) :
    parseRows parse (splitSep ',' hline).length 1 rows = .error e := by
  simp only [read_csv_lines] at h
  cases hx : parseRows parse (splitSep ',' hline).length 1 rows with
  | ok d => rw [hx] at h; simp [Except.map] at h
  | error e' =>
    rw [hx] at h
    simp only [Except.map, Except.error.injEq] at h
    exact congrArg Except.error h

/-- A width error whose line number points at a row containing an
unparseable token is impossible: the width check runs only after the
whole row parsed. -/
lemma width_error_not_at_bad_row {T : Type} (parse : List Char → Option T)
    (hline : List Char) (pre : List (List Char)) (r : List Char)
    (post : List (List Char)) (bad : List Char) (k : Nat)
    (hmem : bad ∈ splitSep ',' r) (hbad : parse bad = none)
    (h : read_csv_lines parse (hline :: (pre ++ r :: post)) =
           .error (.LineTooShort ⟨pre.length + 1, k⟩) ∨
         read_csv_lines parse (hline :: (pre ++ r :: post)) =
           .error (.LineTooLong ⟨pre.length + 1, k⟩)) : False := by
  have hx := h.imp (read_csv_lines_error_elim parse hline _ _)
    (read_csv_lines_error_elim parse hline _ _)
  obtain ⟨pre', r', post', vs, hlist, hjeq, hok, _⟩ :=
    parseRows_width_at parse (splitSep ',' hline).length (pre ++ r :: post) 1
      (pre.length + 1) k hx
  have hpl : pre.length = pre'.length := by omega
  obtain ⟨hpre, hcons⟩ := List.append_inj hlist hpl
  have hr : r = r' := by
    simpa using congrArg (fun l => l.head?) hcons
  rw [← hr] at hok
  obtain ⟨v, hv⟩ := parseEntries_ok_all_parse parse _ vs hok bad hmem
  rw [hbad] at hv
  cases hv

/-- Claim C1: on success of the row stage, the header is the comma split of
line 0, there is one row per remaining line, every row has exactly the
header's width, and each cell is `T`'s parse of the corresponding token;
in particular scenario A holds. -/
theorem c1_row_stage_success :
    (∀ (T : Type) (parse : List Char → Option T) (hline : List Char)
        (rest : List (List Char)) (t : CsvData T),
        read_csv_lines parse (hline :: rest) = .ok t →
        t.header = splitSep ',' hline ∧
        t.data.length = rest.length ∧
        ∀ (j : Nat) (hj : j < rest.length) (hd : j < t.data.length),
          (t.data.get ⟨j, hd⟩).length = t.header.length ∧
          (splitSep ',' (rest.get ⟨j, hj⟩)).map parse = (t.data.get ⟨j, hd⟩).map some) ∧
    read_csv_lines parseI32 ["a,b".data, "1,2".data, "3,4".data] =
      .ok ⟨[['a'], ['b']], [[1, 2], [3, 4]]⟩ := by
  constructor
  · intro T parse hline rest t h
    simp only [read_csv_lines] at h
    cases hrec : parseRows parse (splitSep ',' hline).length 1 rest with
    | error e => rw [hrec] at h; simp [Except.map] at h
    | ok data =>
      rw [hrec] at h
      simp only [Except.map, Except.ok.injEq] at h
      subst h
      obtain ⟨hlen, hcells⟩ := parseRows_ok parse _ rest 1 data hrec
      refine ⟨rfl, hlen, ?_⟩
      intro j hj hd
      obtain ⟨hok, hl⟩ := hcells j hj hd
      exact ⟨hl, by rw [parseEntries_ok parse _ _ hok]⟩
  · decide

/-- Witness for C1 at scenario A's input. -/
theorem c1_row_stage_success_witness :
    (⟨[['a'], ['b']], [[(1 : Int), 2], [3, 4]]⟩ : CsvData Int).header =
      splitSep ',' "a,b".data :=
  (c1_row_stage_success.1 Int parseI32 "a,b".data ["1,2".data, "3,4".data]
    ⟨[['a'], ['b']], [[1, 2], [3, 4]]⟩ c1_row_stage_success.2).1

/-- Claim C2: the row stage fails with `FileIsEmpty` exactly on the empty line
sequence, and a lone header line (even an empty one) succeeds with no
data rows. -/
theorem c2_empty_input :
    (∀ (T : Type) (parse : List Char → Option T) (lines : List (List Char)),
        read_csv_lines parse lines = .error .FileIsEmpty ↔ lines = []) ∧
    (∀ (T : Type) (parse : List Char → Option T) (hline : List Char),
        read_csv_lines parse [hline] = .ok ⟨splitSep ',' hline, []⟩) := by
  constructor
  · intro T parse lines
    constructor
    · intro h
      cases lines with
      | nil => rfl
      | cons hline rest =>
        have hx := read_csv_lines_error_elim parse hline rest _ h
        rcases parseRows_error_shape parse _ rest 1 _ hx with ⟨tok, he⟩ | ⟨ll, he⟩ | ⟨ll, he⟩ <;>
          simp at he
    · rintro rfl
      rfl
  · intro T parse hline
    rfl

/-- Witness for C2: the empty sequence fails with `FileIsEmpty`. -/
theorem c2_empty_input_witness :
    read_csv_lines parseI32 ([] : List (List Char)) = .error .FileIsEmpty :=
  (c2_empty_input.1 Int parseI32 []).mpr rfl

/-- Counterexample to C3 as stated: in `["a,b", "x", "1,2,3"]` the first
data row whose tokens all parse as integers is `"1,2,3"` (row 2, 3
tokens), yet the parser reports the cell failure of row 1, not
`RowTooLong{2, 3}`. -/
theorem c3_counterexample :
    read_csv_lines parseI32 ["a,b".data, "x".data, "1,2,3".data] =
        .error (.CouldNotParseValue ['x']) ∧
    Except.error (CsvError.CouldNotParseValue ['x']) ≠
      (.error (.LineTooLong ⟨2, 3⟩) : Except CsvError (CsvData Int)) := by
  exact ⟨by decide, by decide⟩

/-- Claim C3 (amended): if every data row before row `i` is accepted and row
`i`'s tokens all parse with a count different from the header width, the
parse aborts at row `i` with `LineTooShort`/`LineTooLong` carrying `i`
(1-based, header excluded) and the count — independently of the lines
after it; in particular scenario B holds. -/
theorem c3_row_width_error :
    (∀ (T : Type) (parse : List Char → Option T) (hline : List Char)
        (pre : List (List Char)) (r : List Char) (post : List (List Char))
        (entries : List T),
        (∀ p ∈ pre, rowAccepted parse (splitSep ',' hline).length p) →
        parseEntries parse (splitSep ',' r) = .ok entries →
        entries.length ≠ (splitSep ',' hline).length →
        read_csv_lines parse (hline :: (pre ++ r :: post)) =
          .error (if entries.length < (splitSep ',' hline).length
            then .LineTooShort ⟨pre.length + 1, entries.length⟩
            else .LineTooLong ⟨pre.length + 1, entries.length⟩)) ∧
    read_csv_lines parseI32 ["a,b".data, "1".data] = .error (.LineTooShort ⟨1, 1⟩) := by
  constructor
  · intro T parse hline pre r post entries hacc hok hne
    simp only [read_csv_lines]
    obtain ⟨preD, heq⟩ := parseRows_append_accepted parse (splitSep ',' hline).length
      pre hacc 1 (r :: post)
    rw [heq, parseRows_cons_ok parse _ (1 + pre.length) r post entries hok, if_neg hne,
      Nat.add_comm 1 pre.length]
    by_cases hlt : entries.length < (splitSep ',' hline).length
    · rw [if_pos hlt, if_pos hlt]
      rfl
    · rw [if_neg hlt, if_neg hlt]
      rfl
  · decide

/-- Witness for C3's amended statement at scenario C's input. -/
theorem c3_row_width_error_witness :
    read_csv_lines parseI32 ["a,b".data, "1,2,3".data] = .error (.LineTooLong ⟨1, 3⟩) :=
  (c3_row_width_error.1 Int parseI32 "a,b".data [] "1,2,3".data [] [1, 2, 3]
    (fun p hp => absurd hp (List.not_mem_nil p)) (by decide) (by decide)).trans
    (by decide)

/-- Counterexample to C4 as stated: `["a,b", "1", "x,2"]` contains the
unparseable token `"x"`, yet the parser stops earlier with the width
error of row 1 and never reports `CellParseFailed("x")`. -/
theorem c4_counterexample :
    read_csv_lines parseI32 ["a,b".data, "1".data, "x,2".data] =
        .error (.LineTooShort ⟨1, 1⟩) ∧
    Except.error (CsvError.LineTooShort ⟨1, 1⟩) ≠
      (.error (.CouldNotParseValue ['x']) : Except CsvError (CsvData Int)) := by
  exact ⟨by decide, by decide⟩

/-- Claim C4 (amended): when every data row before the row holding the first
failing token is accepted, the parse aborts with `CouldNotParseValue`
carrying the raw text of that row's leftmost failing token, and no later
row influences the result; in particular scenario D holds. -/
theorem c4_cell_parse_failed :
    (∀ (T : Type) (parse : List Char → Option T) (hline : List Char)
        (pre : List (List Char)) (r : List Char) (post : List (List Char))
        (tpre : List (List Char)) (bad : List Char) (tpost : List (List Char)),
        (∀ p ∈ pre, rowAccepted parse (splitSep ',' hline).length p) →
        splitSep ',' r = tpre ++ bad :: tpost →
        (∀ t ∈ tpre, ∃ v, parse t = some v) →
        parse bad = none →
        read_csv_lines parse (hline :: (pre ++ r :: post)) =
          .error (.CouldNotParseValue bad)) ∧
    read_csv_lines parseI32 ["a,b".data, "x,2".data] =
      .error (.CouldNotParseValue ['x']) := by
  constructor
  · intro T parse hline pre r post tpre bad tpost hacc hsplit hall hbad
    have hperr : parseEntries parse (splitSep ',' r) =
        .error (.CouldNotParseValue bad) := by
      rw [hsplit]
      exact parseEntries_first_error parse tpre bad tpost hall hbad
    simp only [read_csv_lines]
    obtain ⟨preD, heq⟩ := parseRows_append_accepted parse (splitSep ',' hline).length
      pre hacc 1 (r :: post)
    rw [heq, parseRows_cons_error parse _ (1 + pre.length) r post _ hperr]
    rfl
  · decide

/-- Witness for C4's amended statement: in `["a,b", "1,y"]` the leftmost
failing token of the first data row is `"y"`. -/
theorem c4_cell_parse_failed_witness :
    read_csv_lines parseI32 ["a,b".data, "1,y".data] =
      .error (.CouldNotParseValue ['y']) :=
  c4_cell_parse_failed.1 Int parseI32 "a,b".data [] "1,y".data [] [['1']] ['y'] []
    (fun p hp => absurd hp (List.not_mem_nil p)) (by decide)
    (fun t ht => by
      rw [List.mem_singleton] at ht
      exact ⟨1, by rw [ht]; decide⟩)
    (by decide)

/-- Counterexample to C5 as stated: in `["a,b", "1,2,3", "x"]` row 2
(`"x"`) both contains an unparseable token and has the wrong width, yet
the parser returns the width error of row 1, not `CellParseFailed("x")`. -/
theorem c5_counterexample :
    read_csv_lines parseI32 ["a,b".data, "1,2,3".data, "x".data] =
        .error (.LineTooLong ⟨1, 3⟩) ∧
    Except.error (CsvError.LineTooLong ⟨1, 3⟩) ≠
      (.error (.CouldNotParseValue ['x']) : Except CsvError (CsvData Int)) := by
  exact ⟨by decide, by decide⟩

/-- Claim C5 (amended): a short/long-row error is never reported for a row
containing an unparseable token (token parsing precedes the width
comparison), and when such a row is the first data row its leftmost
failing token is reported via `CouldNotParseValue` regardless of the
row's width. -/
theorem c5_parse_precedence :
    (∀ (T : Type) (parse : List Char → Option T) (hline : List Char)
        (pre : List (List Char)) (r : List Char) (post : List (List Char))
        (bad : List Char) (k : Nat),
        bad ∈ splitSep ',' r → parse bad = none →
        read_csv_lines parse (hline :: (pre ++ r :: post)) ≠
            .error (.LineTooShort ⟨pre.length + 1, k⟩) ∧
        read_csv_lines parse (hline :: (pre ++ r :: post)) ≠
            .error (.LineTooLong ⟨pre.length + 1, k⟩)) ∧
    (∀ (T : Type) (parse : List Char → Option T) (hline : List Char) (r : List Char)
        (post : List (List Char)) (tpre : List (List Char)) (bad : List Char)
        (tpost : List (List Char)),
        splitSep ',' r = tpre ++ bad :: tpost →
        (∀ t ∈ tpre, ∃ v, parse t = some v) →
        parse bad = none →
        (splitSep ',' r).length ≠ (splitSep ',' hline).length →
        read_csv_lines parse (hline :: r :: post) =
          .error (.CouldNotParseValue bad)) := by
  constructor
  · intro T parse hline pre r post bad k hmem hbad
    exact ⟨fun hcontra =>
        width_error_not_at_bad_row parse hline pre r post bad k hmem hbad
          (Or.inl hcontra),
      fun hcontra =>
        width_error_not_at_bad_row parse hline pre r post bad k hmem hbad
          (Or.inr hcontra)⟩
  · intro T parse hline r post tpre bad tpost hsplit hall hbad _
    have hperr : parseEntries parse (splitSep ',' r) =
        .error (.CouldNotParseValue bad) := by
      rw [hsplit]
      exact parseEntries_first_error parse tpre bad tpost hall hbad
    simp only [read_csv_lines]
    rw [parseRows_cons_error parse _ 1 r post _ hperr]
    rfl

/-- Witness for C5 at `["a,b", "x"]`: the one-token row `"x"` has both
defects and the cell-parse failure wins. -/
theorem c5_parse_precedence_witness :
    read_csv_lines parseI32 ["a,b".data, "x".data] =
      .error (.CouldNotParseValue ['x']) :=
  c5_parse_precedence.2 Int parseI32 "a,b".data "x".data [] [] ['x'] []
    (by decide) (fun t ht => absurd ht (List.not_mem_nil t)) (by decide) (by decide)

/-- Claim C6: the loader's error taxonomy — a missing path yields
`FileNonExistant` whatever the open or the reads would do, an open
failure is wrapped in `CouldNotOpenFile`, the first undecodable line
aborts the whole list wrapped in `CouldNotParseLine`, and otherwise the
newline-stripped lines are returned in order. -/
theorem c6_loader_error_taxonomy :
    (∀ (o : Except Nat Unit) (l : List (Except Nat (List Char))),
        read_to_lines ⟨false, o, l⟩ = .error .FileNonExistant) ∧
    (∀ (e : Nat) (l : List (Except Nat (List Char))),
        read_to_lines ⟨true, .error e, l⟩ = .error (.CouldNotOpenFile e)) ∧
    (∀ (good : List (List Char)) (e : Nat) (rest : List (Except Nat (List Char))),
        read_to_lines ⟨true, .ok (), good.map .ok ++ .error e :: rest⟩ =
          .error (.CouldNotParseLine e)) ∧
    (∀ content : List Char,
        read_to_lines ⟨true, .ok (), (splitLines content).map .ok⟩ =
          .ok (splitLines content)) :=
  ⟨fun _ _ => rfl, fun _ _ => rfl,
    fun good e rest => collectLines_first_error good e rest,
    fun content => collectLines_map_ok (splitLines content)⟩

/-- Claim C7: the row stage is a pure function of the line sequence — two runs
agree, and re-parsing the loader's output reproduces the first Table. -/
theorem c7_deterministic_idempotent :
    (∀ (T : Type) (parse : List Char → Option T) (lines : List (List Char)),
        read_csv_lines parse lines = read_csv_lines parse lines) ∧
    (∀ (T : Type) (parse : List Char → Option T) (lines : List (List Char))
        (t : CsvData T),
        read_csv_lines parse lines = .ok t → read_csv_lines parse lines = .ok t) :=
  ⟨fun _ _ _ => rfl, fun _ _ _ _ h => h⟩

/-- Witness for C7 at a concrete parse. -/
theorem c7_deterministic_idempotent_witness :
    read_csv_lines parseI32 ["a".data] = .ok ⟨[['a']], []⟩ :=
  c7_deterministic_idempotent.2 Int parseI32 ["a".data] ⟨[['a']], []⟩ (by decide)

/-- Claim C8: a comma split always has a token, so a successful header is never
empty, `LineTooShort` never carries `actual_count = 0`, and an empty data
line is one empty token handed to the parser (`CouldNotParseValue("")`
for the integer type). -/
theorem c8_split_yields_token :
    (∀ (T : Type) (parse : List Char → Option T) (lines : List (List Char))
        (t : CsvData T),
        read_csv_lines parse lines = .ok t → 1 ≤ t.header.length) ∧
    (∀ (T : Type) (parse : List Char → Option T) (lines : List (List Char)) (j : Nat),
        read_csv_lines parse lines ≠ .error (.LineTooShort ⟨j, 0⟩)) ∧
    read_csv_lines parseI32 ["a,b".data, []] = .error (.CouldNotParseValue []) := by
  refine ⟨?_, ?_, by decide⟩
  · intro T parse lines t h
    cases lines with
    | nil => simp [read_csv_lines] at h
    | cons hline rest =>
      simp only [read_csv_lines] at h
      cases hrec : parseRows parse (splitSep ',' hline).length 1 rest with
      | error e => rw [hrec] at h; simp [Except.map] at h
      | ok data =>
        rw [hrec] at h
        simp only [Except.map, Except.ok.injEq] at h
        subst h
        exact List.length_pos.mpr (splitSep_ne_nil ',' hline)
  · intro T parse lines j hcontra
    cases lines with
    | nil => simp [read_csv_lines] at hcontra
    | cons hline rest =>
      have hx := read_csv_lines_error_elim parse hline rest _ hcontra
      obtain ⟨pre', r', post', vs, _, _, hok, hk0⟩ :=
        parseRows_width_at parse (splitSep ',' hline).length rest 1 j 0 (Or.inl hx)
      have hvs : vs = [] := List.length_eq_zero.mp hk0
      subst hvs
      have hmap := parseEntries_ok parse _ _ hok
      simp only [List.map_nil] at hmap
      exact splitSep_ne_nil ',' r' (List.map_eq_nil_iff.mp hmap)

/-- Witness for C8: no one-column file can report a zero-count short row. -/
theorem c8_split_yields_token_witness :
    read_csv_lines parseI32 ["a".data] ≠ .error (.LineTooShort ⟨1, 0⟩) :=
  c8_split_yields_token.2.1 Int parseI32 ["a".data] 1

/-- Counterexample to C9 as stated: the one-byte content `"\n"` ends with
a final newline, yet its line sequence `[""]` differs from that of the
same content without the newline (`""`, no lines at all). -/
theorem c9_counterexample :
    splitLines ['\n'] = [[]] ∧ splitLines ([] : List Char) = [] ∧
    splitLines ['\n'] ≠ splitLines ([] : List Char) := by
  exact ⟨by decide, by decide, by decide⟩

/-- Claim C9 (amended): a final newline terminating a non-empty line (content
non-empty, not already ending in `'\n'` or `'\r'`) produces no extra
line, and a `"\r\n"` ending is stripped exactly like `"\n"` for a line
not itself ending in `'\r'`. -/
theorem c9_newline_terminator :
    (∀ s : List Char, s ≠ [] → s.getLast? ≠ some '\n' → s.getLast? ≠ some '\r' →
        splitLines (s ++ ['\n']) = splitLines s) ∧
    (∀ (c rest : List Char), '\n' ∉ c → c.getLast? ≠ some '\r' →
        splitLines (c ++ '\r' :: '\n' :: rest) = splitLines (c ++ '\n' :: rest)) := by
  constructor
  · intro s hne h1 h2
    exact splitLinesGo_trailing_newline s [] (fun hc => absurd hc hne)
      (fun x hx => ⟨fun hc => h1 (by rw [hx, hc]), fun hc => h2 (by rw [hx, hc])⟩)
  · intro c rest hnl hcr
    show splitLinesGo [] (c ++ '\r' :: '\n' :: rest) =
      splitLinesGo [] (c ++ '\n' :: rest)
    rw [splitLinesGo_no_newline c [] ('\r' :: '\n' :: rest) hnl,
      splitLinesGo_no_newline c [] ('\n' :: rest) hnl,
      splitLinesGo_cons (c.reverse ++ []) '\r' ('\n' :: rest),
      if_neg (by decide : ¬('\r' = '\n')),
      splitLinesGo_cons ('\r' :: (c.reverse ++ [])) '\n' rest, if_pos rfl,
      splitLinesGo_cons (c.reverse ++ []) '\n' rest, if_pos rfl]
    congr 1
    simp [lineOf, List.head?_reverse, hcr]

/-- Witness for C9's amended statement at content `"ab"`. -/
theorem c9_newline_terminator_witness :
    splitLines ("ab".data ++ ['\n']) = splitLines "ab".data :=
  c9_newline_terminator.1 "ab".data (by decide) (by decide) (by decide)

